import Mathlib

/-!
Verification of the sweep-ordering and cross-process flux-exchange subsystem
of chi-tech: the FLUDS compact face serializer and the communication logic of
`betapass.cc` (`SerializeCellInfo`, `DeSerializeCellInfo`,
`InitializeBetaElements`) and the `SweepBuffer` state machine of
`sweepbuffer_general.cc` (`ClearDownstreamBuffers`, `Reset`).

Machine `int`s are modelled as `Int` (the quantities involved — cell ids,
face ids, vertex ids, dof counts — are far from 32-bit overflow for valid
meshes).  `std::vector` is modelled as `List`; an out-of-bounds
`operator[]` read (undefined behaviour in C++) is modelled as returning the
element type's zero value, and an out-of-bounds indexed write as a no-op;
the theorems below only ever exercise in-bounds accesses.
-/

namespace ChiMesh
namespace SweepManagement

/-- `CompactFaceView` from `FLUDS.h`: `std::pair<int, std::vector<int>>` —
a face identifier together with the ordered vertex ids of that face. -/
abbrev CompactFaceView := Int × List Int

/-- `CompactCellView` from `FLUDS.h`:
`std::pair<int, std::vector<CompactFaceView>>` — a global cell id together
with the cell's faces. -/
abbrev CompactCellView := Int × List CompactFaceView

/-- The body of the transfer buffer built by `SerializeCellInfo`
(betapass.cc lines 210–230): for each cell, for each face, push the negated
and offset cell marker `-glob_index-1`, then the face id, then that face's
vertex ids. -/
def serializeBody (cell_views : List CompactCellView) : List Int :=
  cell_views.flatMap (fun cv =>
    cv.2.flatMap (fun fv => (-cv.1 - 1) :: fv.1 :: fv.2))

/-- `SerializeCellInfo` (betapass.cc lines 190–231).  The C++ routine appends
to a caller-supplied `face_indices` vector; at every call site that vector is
freshly constructed and empty, so the routine is modelled as producing the
buffer: first entry `num_face_dofs`, second entry the number of cells, then
the per-face groups of `serializeBody`. -/
def SerializeCellInfo (cell_views : List CompactCellView)
    (num_face_dofs : Int) : List Int :=
  num_face_dofs :: (cell_views.length : Int) :: serializeBody cell_views

/-- Indexed update of a list at a C++ `int` index: applies `g` at position
`i` when `0 ≤ i < length` and leaves the list unchanged otherwise (an
out-of-bounds write is undefined behaviour in the source; the theorems only
use in-bounds indices). -/
def updAt {α : Type} : List α → Int → (α → α) → List α
  | [], _, _ => []
  | a :: l, i, g =>
    if i = 0 then g a :: l
    else if 0 < i then a :: updAt l (i - 1) g
    else a :: l

/-- The state change of the vertex branch of the deserializer loop
(betapass.cc line 276): `cell_views[c].second[f].second.push_back(entry)`. -/
def vertexUpd (cvs : List CompactCellView) (c f : Int) (entry : Int) :
    List CompactCellView :=
  updAt cvs c (fun cv => (cv.1, updAt cv.2 f (fun fv => (fv.1, fv.2 ++ [entry]))))

/-- The state change of the new-cell branch of the deserializer loop
(betapass.cc lines 258–265): push a default cell, set its `first` to
`-entry-1`, push a default face, and set that face's `first` to the next
buffer entry `faceid`. -/
def newCellUpd (cvs : List CompactCellView) (c : Int) (entry faceid : Int) :
    List CompactCellView :=
  updAt
    (updAt
      (updAt (cvs ++ [((0 : Int), ([] : List CompactFaceView))]) (c + 1)
        (fun cv => (-entry - 1, cv.2)))
      (c + 1) (fun cv => (cv.1, cv.2 ++ [((0 : Int), ([] : List Int))])))
    (c + 1) (fun cv => (cv.1, updAt cv.2 0 (fun fv => (faceid, fv.2))))

/-- The state change of the same-cell branch of the deserializer loop
(betapass.cc lines 268–270): push a default face onto cell `c` and set the
new face's `first` (at index `f+1`) to the next buffer entry `faceid`. -/
def sameCellUpd (cvs : List CompactCellView) (c f : Int) (faceid : Int) :
    List CompactCellView :=
  updAt
    (updAt cvs c (fun cv => (cv.1, cv.2 ++ [((0 : Int), ([] : List Int))])))
    c (fun cv => (cv.1, updAt cv.2 (f + 1) (fun fv => (faceid, fv.2))))

/-- The `while (k < face_indices->size())` loop of `DeSerializeCellInfo`
(betapass.cc lines 250–280), as recursion on the unread suffix of the
buffer.  State: `last_cell`, cell counter `c`, face counter `f`, vertex
counter `v`, and the `cell_views` vector being built.  A negative entry
consumes the following entry as the face id (when the negative entry is the
last buffer element, the C++ code reads past the end — undefined behaviour —
modelled as reading `0`). -/
def dsLoop : List Int → Int → Int → Int → Int → List CompactCellView →
    List CompactCellView
  | [], _, _, _, _, cvs => cvs
  | [entry], last_cell, c, f, _, cvs =>
    if entry < 0 then
      if -entry ≠ last_cell then newCellUpd cvs c entry 0
      else sameCellUpd cvs c f 0
    else vertexUpd cvs c f entry
  | entry :: faceid :: rest, last_cell, c, f, v, cvs =>
    if entry < 0 then
      if -entry ≠ last_cell then
        dsLoop rest (-entry) (c + 1) 0 0 (newCellUpd cvs c entry faceid)
      else
        dsLoop rest last_cell c (f + 1) 0 (sameCellUpd cvs c f faceid)
    else
      dsLoop (faceid :: rest) last_cell c f (v + 1) (vertexUpd cvs c f entry)

/-- `DeSerializeCellInfo` (betapass.cc lines 235–281).  Reads
`num_face_dofs` from entry 0 and the cell count from entry 1, resizes the
(empty at every call site) output vector to `num_cells` default entries,
then runs the decoding loop from `k = 2` with `last_cell = -1`,
`c = f = v = -1`.  Returns the final `cell_views` vector together with the
recovered `num_face_dofs`. -/
def DeSerializeCellInfo (face_indices : List Int) :
    List CompactCellView × Int :=
  let num_face_dofs := face_indices.getD 0 0
  let num_cells := face_indices.getD 1 0
  let cell_views :=
    List.replicate num_cells.toNat (((0 : Int), ([] : List CompactFaceView)))
  (dsLoop (face_indices.drop 2) (-1) (-1) (-1) (-1) cell_views, num_face_dofs)


/-- The part of the `SPDS` (sweep plane data structure) read by
`InitializeBetaElements`: the ordinary and delayed predecessor/successor
process lists (SPDS.h). -/
structure SPDS where
  location_dependencies : List Int
  location_successors : List Int
  delayed_location_dependencies : List Int
  delayed_location_successors : List Int

/-- MPI events issued by `InitializeBetaElements`, in program order:
a non-blocking `MPI_Isend` to a destination rank with a tag, a blocking
`MPI_Probe`/`MPI_Get_count`/`MPI_Recv` from a source rank with a tag, an
`MPI_Wait` on the send request of successor index `deplocI`, and the final
release of the send buffers (`multi_face_indices.clear()`). -/
inductive CommEvent where
  | isend : Int → Int → CommEvent
  | proberecv : Int → Int → CommEvent
  | wait : Nat → CommEvent
  | release : CommEvent
  deriving DecidableEq, Repr

/-- Phase 1 of `InitializeBetaElements` (betapass.cc lines 35–61): loop over
`location_successors`; `std::find` the successor in
`delayed_location_successors`, `continue` when absent, otherwise serialize
and `MPI_Isend` with tag `101+tag_index`. -/
def sendDelayedSuccessorTrace (spds : SPDS) (tag_index : Int) :
    List CommEvent :=
  spds.location_successors.flatMap (fun locJ =>
    if spds.delayed_location_successors.contains locJ then
      [CommEvent.isend locJ (101 + tag_index)]
    else [])

/-- Phase 2 (betapass.cc lines 68–86): for each delayed predecessor, probe,
size the receive buffer, and blocking-receive. -/
def recvDelayedPredecessorTrace (spds : SPDS) (tag_index : Int) :
    List CommEvent :=
  spds.delayed_location_dependencies.flatMap (fun locJ =>
    [CommEvent.proberecv locJ (101 + tag_index)])

/-- Phase 3 (betapass.cc lines 99–117): for each ordinary predecessor, in
list order, probe, size the receive buffer, and blocking-receive. -/
def recvPredecessorTrace (spds : SPDS) (tag_index : Int) : List CommEvent :=
  spds.location_dependencies.flatMap (fun locJ =>
    [CommEvent.proberecv locJ (101 + tag_index)])

/-- Phase 4 (betapass.cc lines 120–146): loop over `location_successors`;
`continue` when the successor is found in `delayed_location_successors`,
otherwise serialize and `MPI_Isend` with tag `101+tag_index`. -/
def sendSuccessorTrace (spds : SPDS) (tag_index : Int) : List CommEvent :=
  spds.location_successors.flatMap (fun locJ =>
    if spds.delayed_location_successors.contains locJ then []
    else [CommEvent.isend locJ (101 + tag_index)])

/-- Phase 5 (betapass.cc lines 149–150): `MPI_Wait` on every entry of
`send_requests` (one per location successor). -/
def waitSendsTrace (spds : SPDS) : List CommEvent :=
  (List.range spds.location_successors.length).flatMap (fun deplocI =>
    [CommEvent.wait deplocI])

/-- The MPI event trace of one call to `InitializeBetaElements`
(betapass.cc lines 15–184): the five communication phases in program order,
followed by the release of the send buffers (`multi_face_indices` is cleared
and shrunk only after all waits have completed). -/
def InitializeBetaElementsTrace (spds : SPDS) (tag_index : Int) :
    List CommEvent :=
  sendDelayedSuccessorTrace spds tag_index
    ++ recvDelayedPredecessorTrace spds tag_index
    ++ recvPredecessorTrace spds tag_index
    ++ sendSuccessorTrace spds tag_index
    ++ waitSendsTrace spds
    ++ [CommEvent.release]

/-- Whether the event is an `MPI_Isend` addressed to rank `locJ`. -/
def isSendTo (locJ : Int) : CommEvent → Bool
  | CommEvent.isend dest _ => dest == locJ
  | _ => false

/-- The FLUDS fields mutated by `InitializeBetaElements` (FLUDS.h): the
transient compact-cell-view storage and the per-process face-dof counts. -/
structure FLUDSData where
  deplocI_cell_views : List (List CompactCellView)
  prelocI_cell_views : List (List CompactCellView)
  delayed_prelocI_cell_views : List (List CompactCellView)
  deplocI_face_dof_count : List Int
  prelocI_face_dof_count : List Int
  delayed_prelocI_face_dof_count : List Int
  deriving Repr

/-- Whether successor index `deplocI` is classified delayed: the `std::find`
of `location_successors[deplocI]` in `delayed_location_successors`
(betapass.cc lines 37–43 and 122–128). -/
def delayedSuccessor (spds : SPDS) (deplocI : Nat) : Bool :=
  spds.delayed_location_successors.contains
    (spds.location_successors.getD deplocI 0)

/-- One iteration of the delayed-send loop (betapass.cc lines 35–61): when
the successor is delayed, its compact cell views are serialized into the
local `multi_face_indices` buffer and the per-successor view storage is
cleared and capacity-shrunk (`clear()` + `shrink_to_fit()`, modelled as
emptying the entry); otherwise `continue`. -/
def sendDelayedStep (spds : SPDS) (st : FLUDSData) (deplocI : Nat) :
    FLUDSData :=
  if delayedSuccessor spds deplocI then
    { st with deplocI_cell_views := st.deplocI_cell_views.set deplocI [] }
  else st

/-- The delayed-send loop over all successor indices. -/
def sendDelayedPhase (spds : SPDS) (st : FLUDSData) : FLUDSData :=
  (List.range spds.location_successors.length).foldl
    (sendDelayedStep spds) st

/-- The delayed-receive phase (betapass.cc lines 65–86): the delayed
containers are resized to the number of delayed dependencies and entry `i`
is filled by deserializing the `i`-th received buffer. -/
def recvDelayedPhase (spds : SPDS) (recv_bufs : List (List Int))
    (st : FLUDSData) : FLUDSData :=
  { st with
    delayed_prelocI_cell_views :=
      (List.range spds.delayed_location_dependencies.length).map
        (fun i => (DeSerializeCellInfo (recv_bufs.getD i [])).1),
    delayed_prelocI_face_dof_count :=
      (List.range spds.delayed_location_dependencies.length).map
        (fun i => (DeSerializeCellInfo (recv_bufs.getD i [])).2) }

/-- The ordinary-receive phase (betapass.cc lines 94–117), analogous. -/
def recvPhase (spds : SPDS) (recv_bufs : List (List Int))
    (st : FLUDSData) : FLUDSData :=
  { st with
    prelocI_cell_views :=
      (List.range spds.location_dependencies.length).map
        (fun i => (DeSerializeCellInfo (recv_bufs.getD i [])).1),
    prelocI_face_dof_count :=
      (List.range spds.location_dependencies.length).map
        (fun i => (DeSerializeCellInfo (recv_bufs.getD i [])).2) }

/-- One iteration of the ordinary-send loop (betapass.cc lines 120–146):
`continue` on delayed successors, otherwise serialize and clear/shrink the
per-successor view storage. -/
def sendStep (spds : SPDS) (st : FLUDSData) (deplocI : Nat) : FLUDSData :=
  if delayedSuccessor spds deplocI then st
  else
    { st with deplocI_cell_views := st.deplocI_cell_views.set deplocI [] }

/-- The ordinary-send loop over all successor indices. -/
def sendPhase (spds : SPDS) (st : FLUDSData) : FLUDSData :=
  (List.range spds.location_successors.length).foldl (sendStep spds) st

/-- The effect of `InitializeBetaElements` on the FLUDS transient storage
(betapass.cc lines 15–184): the four communication phases in order, then
(after the face mappings, which do not mutate these fields) the final swaps
with empty vectors of `deplocI_cell_views`, `prelocI_cell_views` and
`delayed_prelocI_cell_views` (lines 175–183). -/
def InitializeBetaElementsData (spds : SPDS)
    (delayed_recv_bufs recv_bufs : List (List Int)) (st : FLUDSData) :
    FLUDSData :=
  let st1 := sendDelayedPhase spds st
  let st2 := recvDelayedPhase spds delayed_recv_bufs st1
  let st3 := recvPhase spds recv_bufs st2
  let st4 := sendPhase spds st3
  { st4 with
    deplocI_cell_views := [],
    prelocI_cell_views := [],
    delayed_prelocI_cell_views := [] }

/-- The `SweepBuffer` state (sweepbuffer.h as used by
`sweepbuffer_general.cc`): the per-sweep flags, the received-message flag
arrays, and the fields set up once by the constructor (`max_num_mess`, the
eager limit, group and angle counts, the communicator set — the latter
modelled as an opaque identifier, since only its identity matters here).
The effect of `fluds_.ClearSendPsi()` is modelled by the counter
`fluds_send_psi_cleared` (number of invocations). -/
structure SweepBuffer where
  done_sending : Bool
  data_initialized : Bool
  upstream_data_initialized : Bool
  prelocI_message_received : List (List Bool)
  delayed_prelocI_message_received : List (List Bool)
  max_num_mess : Int
  EAGER_LIMIT : Int
  num_groups_ : Nat
  num_angles_ : Nat
  comm_set : Nat
  fluds_send_psi_cleared : Nat
  deriving Repr, DecidableEq

/-- The nested `MPI_Test` loop of `ClearDownstreamBuffers`
(sweepbuffer_general.cc lines 51–61) with its early `return`: `true` iff
every request of every successor tests as sent.  The argument mirrors
`deplocI_message_request`, carrying each request's completion status at the
time of the call. -/
def allRequestsSent : List (List Bool) → Bool
  | [] => true
  | reqs :: rest =>
    if reqs.all (fun message_sent => message_sent) then allRequestsSent rest
    else false

/-- `ClearDownstreamBuffers` (sweepbuffer_general.cc lines 46–64):
early-return when `done_sending`; otherwise set `done_sending` true, test
every outstanding request, resetting `done_sending` to false and returning
on the first incomplete one; when all are sent, `fluds_.ClearSendPsi()` is
invoked.  `message_sent` carries the `MPI_Test` outcomes. -/
def ClearDownstreamBuffers (message_sent : List (List Bool))
    (sb : SweepBuffer) : SweepBuffer :=
  if sb.done_sending then sb
  else if allRequestsSent message_sent then
    { sb with
      done_sending := true,
      fluds_send_psi_cleared := sb.fluds_send_psi_cleared + 1 }
  else { sb with done_sending := false }

/-- `Reset` (sweepbuffer_general.cc lines 68–79): clear the three per-sweep
flags and assign every entry of both received-message flag arrays to
`false`, keeping their sizes (`message_flags.assign(message_flags.size(),
false)`). -/
def Reset (sb : SweepBuffer) : SweepBuffer :=
  { sb with
    done_sending := false,
    data_initialized := false,
    upstream_data_initialized := false,
    prelocI_message_received :=
      sb.prelocI_message_received.map
        (fun message_flags => List.replicate message_flags.length false),
    delayed_prelocI_message_received :=
      sb.delayed_prelocI_message_received.map
        (fun message_flags => List.replicate message_flags.length false) }

/-- Writing at index `A.length` of `A ++ x :: B` rewrites `x`. -/
lemma updAt_append_cons {α : Type} (A : List α) (x : α) (B : List α)
    (g : α → α) : updAt (A ++ x :: B) (A.length : Int) g = A ++ g x :: B := by
  induction A with
  | nil => simp [updAt]
  | cons a A ih =>
      have h0 : ¬ (((A.length + 1 : Nat) : Int) = 0) := by
        push_cast; omega
      have h1 : (0 : Int) < ((A.length + 1 : Nat) : Int) := by
        push_cast; omega
      have h2 : ((A.length + 1 : Nat) : Int) - 1 = (A.length : Int) := by
        push_cast; ring
      simp only [List.cons_append, List.length_cons, updAt, h0, h1, if_false,
        if_true, h2]
      exact congrArg (a :: ·) ih

/-- The vertex branch appends `entry` to the vertex list of face `F.length`
(the last face) of the cell at index `A.length`. -/
lemma vertexUpd_spec (A B : List CompactCellView) (gid : Int)
    (F : List CompactFaceView) (fid : Int) (vs : List Int) (entry : Int) :
    vertexUpd (A ++ (gid, F ++ [(fid, vs)]) :: B) (A.length : Int)
      (F.length : Int) entry
    = A ++ (gid, F ++ [(fid, vs ++ [entry])]) :: B := by
  unfold vertexUpd
  rw [updAt_append_cons]
  have : F ++ [(fid, vs)] = F ++ (fid, vs) :: [] := rfl
  rw [this, updAt_append_cons]

/-- The new-cell branch, starting from a default slot at index `A.length`
with cell counter `A.length - 1`: the trailing default entry is appended,
the slot receives id `-entry-1` and a single face `(faceid, [])`. -/
lemma newCellUpd_spec (A B : List CompactCellView) (entry faceid : Int) :
    newCellUpd (A ++ ((0 : Int), ([] : List CompactFaceView)) :: B)
      ((A.length : Int) - 1) entry faceid
    = A ++ ((-entry - 1 : Int), [(faceid, ([] : List Int))])
        :: (B ++ [((0 : Int), [])]) := by
  unfold newCellUpd
  have hidx : ((A.length : Int) - 1) + 1 = (A.length : Int) := by ring
  have happ :
      (A ++ ((0 : Int), ([] : List CompactFaceView)) :: B)
        ++ [((0 : Int), ([] : List CompactFaceView))]
      = A ++ ((0 : Int), ([] : List CompactFaceView))
          :: (B ++ [((0 : Int), ([] : List CompactFaceView))]) := by
    simp
  rw [hidx, happ, updAt_append_cons, updAt_append_cons, updAt_append_cons]
  have hface :
      updAt [((0 : Int), ([] : List Int))] (0 : Int)
        (fun fv => (faceid, fv.2)) = [(faceid, ([] : List Int))] := by
    simp [updAt]
  simp [hface]

/-- The same-cell branch, on the cell `(gid, F)` at index `A.length` with
face counter `F.length - 1`: a new face `(faceid, [])` is appended. -/
lemma sameCellUpd_spec (A B : List CompactCellView) (gid : Int)
    (F : List CompactFaceView) (faceid : Int) :
    sameCellUpd (A ++ (gid, F) :: B) (A.length : Int)
      ((F.length : Int) - 1) faceid
    = A ++ (gid, F ++ [(faceid, ([] : List Int))]) :: B := by
  unfold sameCellUpd
  rw [updAt_append_cons, updAt_append_cons]
  have hidx : ((F.length : Int) - 1) + 1 = (F.length : Int) := by ring
  have hface : F ++ [((0 : Int), ([] : List Int))]
      = F ++ ((0 : Int), ([] : List Int)) :: [] := rfl
  rw [hidx, hface, updAt_append_cons]

/-- The result of the decoding loop does not depend on the vertex counter
`v` (the source increments `v` but never reads it). -/
lemma dsLoop_v_irrel (n : Nat) :
    ∀ buf : List Int, buf.length ≤ n → ∀ lc c f v w cvs,
      dsLoop buf lc c f v cvs = dsLoop buf lc c f w cvs := by
  induction n with
  | zero =>
      intro buf hlen lc c f v w cvs
      rcases buf with _ | ⟨e, rest⟩
      · rfl
      · simp at hlen
  | succ n ih =>
      intro buf hlen lc c f v w cvs
      rcases buf with _ | ⟨e, _ | ⟨fid, rest⟩⟩
      · rfl
      · simp [dsLoop]
      · by_cases he : e < 0
        · by_cases hne : -e ≠ lc
          · simp only [dsLoop, if_pos he, if_pos hne]
          · simp only [dsLoop, if_pos he, if_neg hne]
        · simp only [dsLoop, if_neg he]
          apply ih
          simp at hlen ⊢
          omega

/-- `v`-irrelevance of `dsLoop`, unbundled. -/
lemma dsLoop_v (buf : List Int) (lc c f v w : Int)
    (cvs : List CompactCellView) :
    dsLoop buf lc c f v cvs = dsLoop buf lc c f w cvs :=
  dsLoop_v_irrel buf.length buf le_rfl lc c f v w cvs

/-- One loop step on a non-negative entry: the vertex branch. -/
lemma dsLoop_cons_nonneg (entry : Int) (h : 0 ≤ entry) (rest : List Int)
    (lc c f v : Int) (cvs : List CompactCellView) :
    dsLoop (entry :: rest) lc c f v cvs
    = dsLoop rest lc c f (v + 1) (vertexUpd cvs c f entry) := by
  have h2 : ¬ entry < 0 := by omega
  rcases rest with _ | ⟨fid, rest⟩
  · simp [dsLoop, h2]
  · simp only [dsLoop, if_neg h2]

/-- One loop step on a negative entry whose negation differs from
`last_cell`: the new-cell branch (consumes the face id as well). -/
lemma dsLoop_cons_neg_new (entry : Int) (h : entry < 0) (faceid : Int)
    (rest : List Int) (lc : Int) (hne : -entry ≠ lc) (c f v : Int)
    (cvs : List CompactCellView) :
    dsLoop (entry :: faceid :: rest) lc c f v cvs
    = dsLoop rest (-entry) (c + 1) 0 0 (newCellUpd cvs c entry faceid) := by
  simp only [dsLoop, if_pos h, if_pos hne]

/-- One loop step on a negative entry whose negation equals `last_cell`:
the same-cell branch (consumes the face id as well). -/
lemma dsLoop_cons_neg_same (entry : Int) (h : entry < 0) (faceid : Int)
    (rest : List Int) (lc : Int) (heq : -entry = lc) (c f v : Int)
    (cvs : List CompactCellView) :
    dsLoop (entry :: faceid :: rest) lc c f v cvs
    = dsLoop rest lc c (f + 1) 0 (sameCellUpd cvs c f faceid) := by
  have hne : ¬ (-entry ≠ lc) := by simp [heq]
  simp only [dsLoop, if_pos h, if_neg hne]

/-- Running the loop over a block of non-negative vertex entries appends
them all to the vertex list of the current (last) face of the current
cell. -/
lemma dsLoop_verts (verts : List Int) (hv : ∀ x ∈ verts, 0 ≤ x)
    (tail : List Int) (lc v : Int) (A B : List CompactCellView) (gid : Int)
    (F : List CompactFaceView) (fid : Int) (vs : List Int) (f : Int)
    (cvs : List CompactCellView) (hf : f = (F.length : Int))
    (hcvs : cvs = A ++ (gid, F ++ [(fid, vs)]) :: B) :
    dsLoop (verts ++ tail) lc (A.length : Int) f v cvs
    = dsLoop tail lc (A.length : Int) f 0
        (A ++ (gid, F ++ [(fid, vs ++ verts)]) :: B) := by
  induction verts generalizing vs v f cvs with
  | nil =>
      subst hf hcvs
      simp only [List.nil_append, List.append_nil]
      exact dsLoop_v tail lc _ _ v 0 _
  | cons x verts ih =>
      subst hf hcvs
      have hx : 0 ≤ x := hv x (by simp)
      have hv2 : ∀ y ∈ verts, 0 ≤ y := fun y hy => hv y (by simp [hy])
      rw [List.cons_append, dsLoop_cons_nonneg x hx, vertexUpd_spec,
        ih hv2 (v + 1) (vs ++ [x]) _ _ rfl rfl]
      simp

/-- Running the loop over the serialized groups of further faces of the
current cell (same-cell branches, since every group repeats the current
marker) appends those faces to the current cell. -/
lemma dsLoop_faces (fs : List CompactFaceView)
    (hv : ∀ fv ∈ fs, ∀ x ∈ fv.2, 0 ≤ x) (gid : Int) (hgid : 0 ≤ gid)
    (tail : List Int) (v : Int) (A B : List CompactCellView)
    (F : List CompactFaceView) (f : Int) (cvs : List CompactCellView)
    (hf : f = (F.length : Int) - 1) (hcvs : cvs = A ++ (gid, F) :: B) :
    dsLoop ((fs.flatMap fun fv => (-gid - 1) :: fv.1 :: fv.2) ++ tail)
      (gid + 1) (A.length : Int) f v cvs
    = dsLoop tail (gid + 1) (A.length : Int)
        ((F.length : Int) + (fs.length : Int) - 1) 0
        (A ++ (gid, F ++ fs) :: B) := by
  induction fs generalizing F v f cvs with
  | nil =>
      subst hf hcvs
      simp only [List.flatMap_nil, List.nil_append, List.append_nil,
        List.length_nil, Nat.cast_zero, add_zero]
      exact dsLoop_v tail (gid + 1) _ _ v 0 _
  | cons ff fs ih =>
      subst hf hcvs
      have hneg : -gid - 1 < 0 := by omega
      have heq : -(-gid - 1) = gid + 1 := by ring
      have hv1 : ∀ x ∈ ff.2, 0 ≤ x := hv ff (by simp)
      have hv2 : ∀ fv ∈ fs, ∀ x ∈ fv.2, 0 ≤ x :=
        fun fv hfv => hv fv (by simp [hfv])
      rw [List.flatMap_cons]
      simp only [List.cons_append, List.append_assoc]
      rw [dsLoop_cons_neg_same (-gid - 1) hneg ff.1 _ (gid + 1) heq,
        sameCellUpd_spec,
        dsLoop_verts ff.2 hv1 _ (gid + 1) 0 A B gid F ff.1 [] _ _
          (by ring) rfl,
        ih hv2 0 (F ++ [(ff.1, [] ++ ff.2)]) _ _
          (by simp) rfl]
      have harith : ((F ++ [(ff.1, [] ++ ff.2)]).length : Int)
            + (fs.length : Int) - 1
          = (F.length : Int) + (((ff :: fs).length : Nat) : Int) - 1 := by
        simp only [List.length_append, List.length_cons, List.length_nil]
        push_cast
        ring
      rw [harith]
      simp

/-- Running the loop over one whole serialized cell (non-empty face list):
the new-cell branch consumes the default slot at index `A.length`, and the
face groups fill it with the cell's id and faces; the `push_back` in the
new-cell branch appends one default entry at the end of the vector. -/
lemma dsLoop_cell (gid : Int) (hgid : 0 ≤ gid) (ff : CompactFaceView)
    (fs : List CompactFaceView)
    (hv : ∀ fv ∈ ff :: fs, ∀ x ∈ fv.2, 0 ≤ x)
    (tail : List Int) (lc : Int) (hlc : lc ≠ gid + 1) (c f v : Int)
    (A B : List CompactCellView) (cvs : List CompactCellView)
    (hc : c = (A.length : Int) - 1)
    (hcvs : cvs = A ++ ((0 : Int), ([] : List CompactFaceView)) :: B) :
    dsLoop (((ff :: fs).flatMap fun fv => (-gid - 1) :: fv.1 :: fv.2) ++ tail)
      lc c f v cvs
    = dsLoop tail (gid + 1) (A.length : Int)
        (((ff :: fs).length : Int) - 1) 0
        (A ++ (gid, ff :: fs) :: (B ++ [((0 : Int), [])])) := by
  subst hc hcvs
  have hneg : -gid - 1 < 0 := by omega
  have heq : -(-gid - 1) = gid + 1 := by ring
  have hne : -(-gid - 1) ≠ lc := by rw [heq]; exact (Ne.symm hlc)
  have hv1 : ∀ x ∈ ff.2, 0 ≤ x := hv ff (by simp)
  have hv2 : ∀ fv ∈ fs, ∀ x ∈ fv.2, 0 ≤ x :=
    fun fv hfv => hv fv (by simp [hfv])
  rw [List.flatMap_cons]
  simp only [List.cons_append, List.append_assoc]
  rw [dsLoop_cons_neg_new (-gid - 1) hneg ff.1 _ lc hne, newCellUpd_spec, heq]
  have hc1 : ((A.length : Int) - 1) + 1 = (A.length : Int) := by ring
  have hg : gid + 1 - 1 = gid := by ring
  rw [hc1, hg]
  rw [dsLoop_verts ff.2 hv1 _ (gid + 1) 0 A
        (B ++ [((0 : Int), ([] : List CompactFaceView))])
        gid [] ff.1 [] _ _ (by simp) (by simp)]
  rw [dsLoop_faces fs hv2 gid hgid tail 0 A
        (B ++ [((0 : Int), ([] : List CompactFaceView))])
        ([] ++ [(ff.1, [] ++ ff.2)]) _ _ (by simp) rfl]
  have harith : ((([] : List CompactFaceView)
          ++ [(ff.1, [] ++ ff.2)]).length : Int) + (fs.length : Int) - 1
      = (((ff :: fs).length : Nat) : Int) - 1 := by
    simp only [List.nil_append, List.length_cons, List.length_nil]
    push_cast
    ring
  rw [harith]
  simp

/-- `serializeBody` of a cons. -/
lemma serializeBody_cons (cv : CompactCellView)
    (views : List CompactCellView) :
    serializeBody (cv :: views)
    = (cv.2.flatMap fun fv => (-cv.1 - 1) :: fv.1 :: fv.2)
        ++ serializeBody views := by
  simp [serializeBody]

/-- Running the loop over a whole serialized body: starting from default
slots for the encoded cells, the decoded cells overwrite the slots in
order, and one default entry per decoded cell is appended at the end. -/
lemma dsLoop_body (views : List CompactCellView)
    (h1 : ∀ cv ∈ views, 0 ≤ cv.1) (h2 : ∀ cv ∈ views, cv.2 ≠ [])
    (h3 : ∀ cv ∈ views, ∀ fv ∈ cv.2, ∀ x ∈ fv.2, 0 ≤ x)
    (hchain : List.Chain' (fun a b => a.1 ≠ b.1) views)
    (lc : Int) (hlc : ∀ cv ∈ views.head?, lc ≠ cv.1 + 1)
    (c f v : Int) (A B : List CompactCellView)
    (cvs : List CompactCellView) (hc : c = (A.length : Int) - 1)
    (hcvs : cvs = A ++ (List.replicate views.length
      ((0 : Int), ([] : List CompactFaceView)) ++ B)) :
    dsLoop (serializeBody views) lc c f v cvs
    = A ++ (views ++ (B ++ List.replicate views.length
        ((0 : Int), ([] : List CompactFaceView)))) := by
  induction views generalizing lc f v A B c cvs with
  | nil =>
      subst hc hcvs
      simp [serializeBody, dsLoop]
  | cons cv views ih =>
      subst hc hcvs
      obtain ⟨gid, fsl⟩ := cv
      have hfs : fsl ≠ [] := h2 (gid, fsl) (by simp)
      rcases fsl with _ | ⟨ff, fs⟩
      · exact absurd rfl hfs
      have hgid : 0 ≤ gid := h1 (gid, ff :: fs) (by simp)
      have hv : ∀ fv ∈ ff :: fs, ∀ x ∈ fv.2, 0 ≤ x :=
        h3 (gid, ff :: fs) (by simp)
      have hlc1 : lc ≠ gid + 1 := by
        have := hlc (gid, ff :: fs) (by simp)
        simpa using this
      have hch : List.Chain' (fun a b : CompactCellView => a.1 ≠ b.1) views :=
        (List.chain'_cons'.mp hchain).2
      have hlc2 : ∀ cv2 ∈ views.head?, gid + 1 ≠ cv2.1 + 1 := by
        intro cv2 hcv2
        have := (List.chain'_cons'.mp hchain).1 cv2 hcv2
        simp only [ne_eq] at this ⊢
        intro hcontra
        exact this (by omega)
      rw [serializeBody_cons]
      rw [dsLoop_cell gid hgid ff fs hv (serializeBody views) lc hlc1
            ((A.length : Int) - 1) f v A
            (List.replicate views.length
              ((0 : Int), ([] : List CompactFaceView)) ++ B) _ rfl
            (by simp [List.replicate_succ])]
      rw [ih (fun x hx => h1 x (by simp [hx]))
            (fun x hx => h2 x (by simp [hx]))
            (fun x hx => h3 x (by simp [hx])) hch (gid + 1) hlc2
            _ _ _ (A ++ [((gid : Int), ff :: fs)])
            (B ++ [((0 : Int), ([] : List CompactFaceView))]) _
            (by simp) (by simp)]
      simp [List.replicate_succ, List.singleton_append]

/-- Round trip of the wire format, proved from the code: deserializing the
buffer produced by `SerializeCellInfo` on a list of well-formed cell views
(non-empty face lists, non-negative cell ids and vertex ids, adjacent cells
with distinct ids) recovers `num_face_dofs` and yields the original views
in order — followed by one spurious default-constructed view per cell, the
effect of `cell_views.resize(num_cells)` combined with `push_back` per
decoded cell. -/
lemma DeSerialize_Serialize (views : List CompactCellView) (d : Int)
    (h1 : ∀ cv ∈ views, 0 ≤ cv.1) (h2 : ∀ cv ∈ views, cv.2 ≠ [])
    (h3 : ∀ cv ∈ views, ∀ fv ∈ cv.2, ∀ x ∈ fv.2, 0 ≤ x)
    (hchain : List.Chain' (fun a b => a.1 ≠ b.1) views) :
    DeSerializeCellInfo (SerializeCellInfo views d)
    = (views ++ List.replicate views.length
        ((0 : Int), ([] : List CompactFaceView)), d) := by
  unfold DeSerializeCellInfo SerializeCellInfo
  simp only [List.getD_cons_zero, List.getD_cons_succ, List.drop_succ_cons,
    List.drop_zero, Int.toNat_natCast]
  have hlc : ∀ cv ∈ views.head?, (-1 : Int) ≠ cv.1 + 1 := by
    intro cv hcv
    have hmem : cv ∈ views := List.mem_of_mem_head? hcv
    have := h1 cv hmem
    omega
  rw [dsLoop_body views h1 h2 h3 hchain (-1) hlc (-1) (-1) (-1) [] [] _
        (by simp) (by simp)]
  simp
/-- Flattening a loop whose body emits one event when `p` holds and nothing
otherwise is the filtered map. -/
lemma flatMap_if_singleton {α β : Type} (l : List α) (p : α → Bool)
    (g : α → β) :
    (l.flatMap fun x => if p x then [g x] else []) = (l.filter p).map g := by
  induction l with
  | nil => rfl
  | cons a l ih =>
      by_cases h : p a <;> simp [List.filter_cons, h, ih]

/-- Flattening a loop whose body emits nothing when `p` holds and one event
otherwise filters on the negation. -/
lemma flatMap_if_neg_singleton {α β : Type} (l : List α) (p : α → Bool)
    (g : α → β) :
    (l.flatMap fun x => if p x then [] else [g x])
    = (l.filter fun x => !(p x)).map g := by
  induction l with
  | nil => rfl
  | cons a l ih =>
      by_cases h : p a <;> simp [List.filter_cons, h, ih]

/-- A loop body that always emits one event is the map. -/
lemma flatMap_singleton_map {α β : Type} (l : List α) (g : α → β) :
    (l.flatMap fun x => [g x]) = l.map g := by
  induction l <;> simp_all

/-- The trace of `InitializeBetaElements` decomposed into its five phases:
delayed sends (to exactly the successors found in
`delayed_location_successors`), delayed receives, ordinary receives in
dependency-list order, ordinary sends (to exactly the remaining
successors), waits on every send request, then buffer release. -/
lemma InitializeBetaElementsTrace_eq (spds : SPDS) (tag_index : Int) :
    InitializeBetaElementsTrace spds tag_index
    = ((spds.location_successors.filter
          (fun locJ => spds.delayed_location_successors.contains locJ)).map
          (fun locJ => CommEvent.isend locJ (101 + tag_index)))
      ++ ((spds.delayed_location_dependencies.map
          (fun locJ => CommEvent.proberecv locJ (101 + tag_index)))
      ++ ((spds.location_dependencies.map
          (fun locJ => CommEvent.proberecv locJ (101 + tag_index)))
      ++ (((spds.location_successors.filter
          (fun locJ => !(spds.delayed_location_successors.contains locJ))).map
          (fun locJ => CommEvent.isend locJ (101 + tag_index)))
      ++ (((List.range spds.location_successors.length).map CommEvent.wait)
      ++ [CommEvent.release])))) := by
  unfold InitializeBetaElementsTrace sendDelayedSuccessorTrace
    recvDelayedPredecessorTrace recvPredecessorTrace sendSuccessorTrace
    waitSendsTrace
  rw [flatMap_if_singleton, flatMap_if_neg_singleton, flatMap_singleton_map,
    flatMap_singleton_map, flatMap_singleton_map]
  simp only [List.append_assoc]

/-- Filtering a mapped send segment for sends to `locJ` counts the
occurrences of `locJ` among the destinations. -/
lemma length_filter_isSendTo_map (m : List Int) (t locJ : Int) :
    ((m.map (fun j => CommEvent.isend j t)).filter (isSendTo locJ)).length
    = m.count locJ := by
  induction m with
  | nil => rfl
  | cons j m ih =>
      by_cases h : j == locJ <;>
        simp_all [List.filter_cons, isSendTo, List.count_cons]

/-- Probe-receive events are never sends. -/
lemma filter_isSendTo_proberecv (m : List Int) (t locJ : Int) :
    ((m.map (fun j => CommEvent.proberecv j t)).filter (isSendTo locJ))
    = [] := by
  induction m <;> simp_all [List.filter_cons, isSendTo]

/-- Wait events are never sends. -/
lemma filter_isSendTo_wait (m : List Nat) (locJ : Int) :
    ((m.map CommEvent.wait).filter (isSendTo locJ)) = [] := by
  induction m <;> simp_all [List.filter_cons, isSendTo]

/-- The serialized groups of one cell contribute one negative entry (the
marker) per face, given non-negative face and vertex ids. -/
lemma countP_neg_cell_groups (gid : Int) (hgid : 0 ≤ gid)
    (fs : List CompactFaceView) (hfid : ∀ fv ∈ fs, 0 ≤ fv.1)
    (hverts : ∀ fv ∈ fs, ∀ x ∈ fv.2, 0 ≤ x) :
    (fs.flatMap fun fv => (-gid - 1) :: fv.1 :: fv.2).countP
      (fun x => decide (x < 0)) = fs.length := by
  induction fs with
  | nil => rfl
  | cons fv fs ih =>
      have hfid1 : ¬ (fv.1 < 0) := by
        have := hfid fv (by simp)
        omega
      have hm : -gid - 1 < 0 := by omega
      have hz : (fv.2.countP fun x => decide (x < 0)) = 0 := by
        rw [List.countP_eq_zero]
        intro x hx
        have := hverts fv (by simp) x hx
        simpa using by omega
      rw [List.flatMap_cons, List.countP_append, List.countP_cons,
        List.countP_cons, hz,
        ih (fun a ha => hfid a (by simp [ha]))
          (fun a ha => hverts a (by simp [ha]))]
      simp [hm, hfid1]
      omega

/-- The serialized body contributes one negative entry per face in total. -/
lemma countP_neg_serializeBody (views : List CompactCellView)
    (hgid : ∀ cv ∈ views, 0 ≤ cv.1)
    (hfid : ∀ cv ∈ views, ∀ fv ∈ cv.2, 0 ≤ fv.1)
    (hverts : ∀ cv ∈ views, ∀ fv ∈ cv.2, ∀ x ∈ fv.2, 0 ≤ x) :
    (serializeBody views).countP (fun x => decide (x < 0))
    = (views.map (fun cv => cv.2.length)).sum := by
  induction views with
  | nil => rfl
  | cons cv views ih =>
      rw [serializeBody_cons, List.countP_append,
        countP_neg_cell_groups cv.1 (hgid cv (by simp)) cv.2
          (hfid cv (by simp)) (hverts cv (by simp)),
        ih (fun a ha => hgid a (by simp [ha]))
          (fun a ha => hfid a (by simp [ha]))
          (fun a ha => hverts a (by simp [ha]))]
      simp

/-- `getD` at the just-set index. -/
lemma getD_set_self {α : Type} (l : List α) (i : Nat) (x d : α)
    (h : i < l.length) : (l.set i x).getD i d = x := by
  induction l generalizing i with
  | nil => simp at h
  | cons a l ih =>
      cases i with
      | zero => rfl
      | succ i => exact ih i (by simpa using h)

/-- `getD` at an index other than the one set. -/
lemma getD_set_ne {α : Type} (l : List α) (i j : Nat) (x d : α)
    (h : i ≠ j) : (l.set i x).getD j d = l.getD j d := by
  induction l generalizing i j with
  | nil => rfl
  | cons a l ih =>
      cases i with
      | zero =>
          cases j with
          | zero => exact absurd rfl h
          | succ j => rfl
      | succ i =>
          cases j with
          | zero => rfl
          | succ j => exact ih i j (by omega)

/-- One delayed-send iteration on a delayed successor clears its entry. -/
lemma sendDelayedStep_delayed (spds : SPDS) (s : FLUDSData) (i : Nat)
    (h : delayedSuccessor spds i = true) :
    sendDelayedStep spds s i
    = { s with deplocI_cell_views := s.deplocI_cell_views.set i [] } := by
  unfold sendDelayedStep
  rw [if_pos h]

/-- One delayed-send iteration on an ordinary successor is a no-op
(`continue`). -/
lemma sendDelayedStep_ordinary (spds : SPDS) (s : FLUDSData) (i : Nat)
    (h : ¬ delayedSuccessor spds i = true) :
    sendDelayedStep spds s i = s := by
  unfold sendDelayedStep
  rw [if_neg h]

/-- One ordinary-send iteration on a delayed successor is a no-op
(`continue`). -/
lemma sendStep_delayed (spds : SPDS) (s : FLUDSData) (i : Nat)
    (h : delayedSuccessor spds i = true) :
    sendStep spds s i = s := by
  unfold sendStep
  rw [if_pos h]

/-- One ordinary-send iteration on an ordinary successor clears its
entry. -/
lemma sendStep_ordinary (spds : SPDS) (s : FLUDSData) (i : Nat)
    (h : ¬ delayedSuccessor spds i = true) :
    sendStep spds s i
    = { s with deplocI_cell_views := s.deplocI_cell_views.set i [] } := by
  unfold sendStep
  rw [if_neg h]

/-- One delayed-send iteration preserves the storage length. -/
lemma sendDelayedStep_length (spds : SPDS) (s : FLUDSData) (i : Nat) :
    (sendDelayedStep spds s i).deplocI_cell_views.length
    = s.deplocI_cell_views.length := by
  by_cases h : delayedSuccessor spds i = true
  · rw [sendDelayedStep_delayed spds s i h]
    simp
  · rw [sendDelayedStep_ordinary spds s i h]

/-- One ordinary-send iteration preserves the storage length. -/
lemma sendStep_length (spds : SPDS) (s : FLUDSData) (i : Nat) :
    (sendStep spds s i).deplocI_cell_views.length
    = s.deplocI_cell_views.length := by
  by_cases h : delayedSuccessor spds i = true
  · rw [sendStep_delayed spds s i h]
  · rw [sendStep_ordinary spds s i h]
    simp

/-- One delayed-send iteration does not touch other indices. -/
lemma sendDelayedStep_getD_ne (spds : SPDS) (s : FLUDSData) (i j : Nat)
    (h : i ≠ j) :
    (sendDelayedStep spds s i).deplocI_cell_views.getD j []
    = s.deplocI_cell_views.getD j [] := by
  by_cases hd : delayedSuccessor spds i = true
  · rw [sendDelayedStep_delayed spds s i hd]
    exact getD_set_ne _ _ _ _ _ h
  · rw [sendDelayedStep_ordinary spds s i hd]

/-- One ordinary-send iteration does not touch other indices. -/
lemma sendStep_getD_ne (spds : SPDS) (s : FLUDSData) (i j : Nat)
    (h : i ≠ j) :
    (sendStep spds s i).deplocI_cell_views.getD j []
    = s.deplocI_cell_views.getD j [] := by
  by_cases hd : delayedSuccessor spds i = true
  · rw [sendStep_delayed spds s i hd]
  · rw [sendStep_ordinary spds s i hd]
    exact getD_set_ne _ _ _ _ _ h

/-- The delayed-send loop preserves the length of `deplocI_cell_views`. -/
lemma sendDelayed_foldl_length (spds : SPDS) (st : FLUDSData) (k : Nat) :
    ((List.range k).foldl (sendDelayedStep spds) st).deplocI_cell_views.length
    = st.deplocI_cell_views.length := by
  induction k with
  | zero => rfl
  | succ k ih =>
      rw [List.range_succ, List.foldl_append]
      simp only [List.foldl_cons, List.foldl_nil]
      rw [sendDelayedStep_length, ih]

/-- The ordinary-send loop preserves the length of `deplocI_cell_views`. -/
lemma send_foldl_length (spds : SPDS) (st : FLUDSData) (k : Nat) :
    ((List.range k).foldl (sendStep spds) st).deplocI_cell_views.length
    = st.deplocI_cell_views.length := by
  induction k with
  | zero => rfl
  | succ k ih =>
      rw [List.range_succ, List.foldl_append]
      simp only [List.foldl_cons, List.foldl_nil]
      rw [sendStep_length, ih]

/-- The first `k` iterations of the delayed-send loop touch only indices
below `k`. -/
lemma sendDelayed_foldl_preserves (spds : SPDS) (st : FLUDSData) (k j : Nat)
    (hjk : k ≤ j) :
    ((List.range k).foldl (sendDelayedStep spds) st).deplocI_cell_views.getD
      j []
    = st.deplocI_cell_views.getD j [] := by
  revert hjk
  induction k with
  | zero => intro hjk; rfl
  | succ k ih =>
      intro hjk
      rw [List.range_succ, List.foldl_append]
      simp only [List.foldl_cons, List.foldl_nil]
      rw [sendDelayedStep_getD_ne _ _ _ _ (by omega), ih (by omega)]

/-- The first `k` iterations of the ordinary-send loop touch only indices
below `k`. -/
lemma send_foldl_preserves (spds : SPDS) (st : FLUDSData) (k j : Nat)
    (hjk : k ≤ j) :
    ((List.range k).foldl (sendStep spds) st).deplocI_cell_views.getD j []
    = st.deplocI_cell_views.getD j [] := by
  revert hjk
  induction k with
  | zero => intro hjk; rfl
  | succ k ih =>
      intro hjk
      rw [List.range_succ, List.foldl_append]
      simp only [List.foldl_cons, List.foldl_nil]
      rw [sendStep_getD_ne _ _ _ _ (by omega), ih (by omega)]

/-- After the first `k` iterations of the delayed-send loop, every delayed
successor index already processed has its view storage cleared. -/
lemma sendDelayed_foldl_cleared (spds : SPDS) (st : FLUDSData) (k j : Nat)
    (hlen : st.deplocI_cell_views.length
      = spds.location_successors.length)
    (hk : k ≤ spds.location_successors.length) (hj : j < k)
    (hdel : delayedSuccessor spds j = true) :
    ((List.range k).foldl (sendDelayedStep spds) st).deplocI_cell_views.getD
      j [] = [] := by
  revert hk hj
  induction k with
  | zero => intro hk hj; omega
  | succ k ih =>
      intro hk hj
      rw [List.range_succ, List.foldl_append]
      simp only [List.foldl_cons, List.foldl_nil]
      by_cases hjk : j = k
      · subst hjk
        rw [sendDelayedStep_delayed _ _ _ hdel]
        simp only
        rw [getD_set_self]
        rw [sendDelayed_foldl_length, hlen]
        omega
      · rw [sendDelayedStep_getD_ne _ _ _ _ (fun hh => hjk hh.symm)]
        exact ih (by omega) (by omega)

/-- After the first `k` iterations of the ordinary-send loop (running on a
state in which every delayed successor's storage is already cleared), every
successor index already processed has its view storage cleared — ordinary
indices by the `clear()` in this loop, delayed indices from before. -/
lemma send_foldl_cleared (spds : SPDS) (st : FLUDSData) (k j : Nat)
    (hlen : st.deplocI_cell_views.length
      = spds.location_successors.length)
    (hprev : ∀ i, delayedSuccessor spds i = true →
      st.deplocI_cell_views.getD i [] = [])
    (hk : k ≤ spds.location_successors.length) (hj : j < k) :
    ((List.range k).foldl (sendStep spds) st).deplocI_cell_views.getD j []
    = [] := by
  revert hk hj
  induction k with
  | zero => intro hk hj; omega
  | succ k ih =>
      intro hk hj
      rw [List.range_succ, List.foldl_append]
      simp only [List.foldl_cons, List.foldl_nil]
      by_cases hjk : j = k
      · subst hjk
        by_cases hd : delayedSuccessor spds j = true
        · rw [sendStep_delayed _ _ _ hd,
            send_foldl_preserves spds st j j le_rfl]
          exact hprev j hd
        · rw [sendStep_ordinary _ _ _ hd]
          simp only
          rw [getD_set_self]
          rw [send_foldl_length, hlen]
          omega
      · rw [sendStep_getD_ne _ _ _ _ (fun hh => hjk hh.symm)]
        exact ih (by omega) (by omega)

/-- A `ClearDownstreamBuffers` call that observes an incomplete send leaves
the state exactly as it was. -/
lemma ClearDownstreamBuffers_incomplete (sb : SweepBuffer)
    (h : sb.done_sending = false) (x : List (List Bool))
    (hx : allRequestsSent x = false) :
    ClearDownstreamBuffers x sb = sb := by
  obtain ⟨ds, d1, u1, p1, p2, mm, el, ng, na, cs, fc⟩ := sb
  simp only at h
  subst h
  simp [ClearDownstreamBuffers, hx]

/-- Any number of `ClearDownstreamBuffers` calls that each observe an
incomplete send leave the state exactly as it was. -/
lemma ClearDownstreamBuffers_foldl_incomplete (sb : SweepBuffer)
    (h : sb.done_sending = false) (tests : List (List (List Bool)))
    (hin : ∀ x ∈ tests, allRequestsSent x = false) :
    tests.foldl (fun s x => ClearDownstreamBuffers x s) sb = sb := by
  induction tests with
  | nil => rfl
  | cons x rest ih =>
      simp only [List.foldl_cons]
      rw [ClearDownstreamBuffers_incomplete sb h x (hin x (by simp))]
      exact ih (fun y hy => hin y (by simp [hy]))

/-- C1: the spec claims that `DeSerializeCellInfo` applied to the buffer
produced by `SerializeCellInfo` yields exactly the original list of cell
views.  The code violates this: on the single-cell list below (one face,
non-negative ids) the decoder returns the original cell followed by one
spurious default-constructed cell view, because `cell_views.resize
(num_cells)` is followed by one `push_back` per decoded cell while the
decoded data is written at indices `0..num_cells-1`. -/
theorem claim_C1_roundtrip_padding_bug :
    DeSerializeCellInfo (SerializeCellInfo
      [((5 : Int), [((2 : Int), [(7 : Int), (9 : Int)])])] 4)
    = ([((5 : Int), [((2 : Int), [(7 : Int), (9 : Int)])]),
        ((0 : Int), ([] : List CompactFaceView))], 4)
    ∧ ([((5 : Int), [((2 : Int), [(7 : Int), (9 : Int)])]),
        ((0 : Int), ([] : List CompactFaceView))]
      ≠ [((5 : Int), [((2 : Int), [(7 : Int), (9 : Int)])])]) :=
  ⟨by decide, by decide⟩

/-- C4 counterexample: the claim says each cell's negated-and-offset marker
appears exactly once in the buffer, with consecutive faces of the same cell
not repeating it.  For a single cell with global id 0 and two faces, the
serializer emits the marker `-1` before every face: it appears twice. -/
theorem claim_C4_counterexample :
    SerializeCellInfo
      [((0 : Int), [((1 : Int), [(5 : Int)]), ((2 : Int), [(6 : Int)])])] 3
      = [3, 1, -1, 1, 5, -1, 2, 6]
    ∧ (SerializeCellInfo
      [((0 : Int), [((1 : Int), [(5 : Int)]), ((2 : Int), [(6 : Int)])])]
        3).count (-1) = 2 :=
  ⟨by decide, by decide⟩

/-- C4 amended: each cell's marker appears once per face of that cell —
the marker is repeated before every face group, so for well-formed views
(non-negative dof count, cell ids, face ids and vertex ids) the number of
negative entries in the buffer equals the total number of faces, not the
number of cells. -/
theorem claim_C4_marker_once_per_face (views : List CompactCellView)
    (d : Int) (hd : 0 ≤ d) (hgid : ∀ cv ∈ views, 0 ≤ cv.1)
    (hfid : ∀ cv ∈ views, ∀ fv ∈ cv.2, 0 ≤ fv.1)
    (hverts : ∀ cv ∈ views, ∀ fv ∈ cv.2, ∀ x ∈ fv.2, 0 ≤ x) :
    (SerializeCellInfo views d).countP (fun x => decide (x < 0))
    = (views.map (fun cv => cv.2.length)).sum := by
  unfold SerializeCellInfo
  rw [List.countP_cons, List.countP_cons,
    countP_neg_serializeBody views hgid hfid hverts]
  have h1 : ¬ (d < 0) := by omega
  have h2 : ¬ ((views.length : Int) < 0) := by
    have := Int.natCast_nonneg views.length
    omega
  simp [h1, h2]

/-- Witness for the amended C4 at a concrete two-cell input with three
faces in total. -/
theorem claim_C4_marker_once_per_face_witness :
    ((0 : Int) ≤ 3
      ∧ (∀ cv ∈ [((0 : Int), [((1 : Int), [(5 : Int)]), ((2 : Int), [(6 : Int)])]),
          ((4 : Int), [((0 : Int), ([] : List Int))])], 0 ≤ cv.1)
      ∧ (∀ cv ∈ [((0 : Int), [((1 : Int), [(5 : Int)]), ((2 : Int), [(6 : Int)])]),
          ((4 : Int), [((0 : Int), ([] : List Int))])], ∀ fv ∈ cv.2, 0 ≤ fv.1)
      ∧ (∀ cv ∈ [((0 : Int), [((1 : Int), [(5 : Int)]), ((2 : Int), [(6 : Int)])]),
          ((4 : Int), [((0 : Int), ([] : List Int))])],
          ∀ fv ∈ cv.2, ∀ x ∈ fv.2, 0 ≤ x))
    ∧ (SerializeCellInfo
        [((0 : Int), [((1 : Int), [(5 : Int)]), ((2 : Int), [(6 : Int)])]),
          ((4 : Int), [((0 : Int), ([] : List Int))])] 3).countP
        (fun x => decide (x < 0))
      = ([((0 : Int), [((1 : Int), [(5 : Int)]), ((2 : Int), [(6 : Int)])]),
          ((4 : Int), [((0 : Int), ([] : List Int))])].map
          (fun cv => cv.2.length)).sum :=
  ⟨⟨by decide, by decide, by decide, by decide⟩,
    claim_C4_marker_once_per_face
      [((0 : Int), [((1 : Int), [(5 : Int)]), ((2 : Int), [(6 : Int)])]),
        ((4 : Int), [((0 : Int), ([] : List Int))])] 3
      (by decide) (by decide) (by decide) (by decide)⟩

/-- C10: for a buffer whose header declares `n` cells and whose body
well-formedly encodes those same `n` cells (non-empty face lists,
non-negative cell and vertex ids, adjacent cells with distinct ids — as
produced by `SerializeCellInfo`), `DeSerializeCellInfo` returns a vector of
length `2n`: the decoded cells at indices `0..n-1` and `n` default
(empty) cell views behind them, and recovers `num_face_dofs`. -/
theorem claim_C10_resize_push_back_doubles (views : List CompactCellView)
    (d : Int) (h1 : ∀ cv ∈ views, 0 ≤ cv.1) (h2 : ∀ cv ∈ views, cv.2 ≠ [])
    (h3 : ∀ cv ∈ views, ∀ fv ∈ cv.2, ∀ x ∈ fv.2, 0 ≤ x)
    (hchain : List.Chain' (fun a b => a.1 ≠ b.1) views) :
    (DeSerializeCellInfo (SerializeCellInfo views d)).1.length
      = 2 * views.length
    ∧ (DeSerializeCellInfo (SerializeCellInfo views d)).1.take views.length
      = views
    ∧ (DeSerializeCellInfo (SerializeCellInfo views d)).1.drop views.length
      = List.replicate views.length ((0 : Int), ([] : List CompactFaceView))
    ∧ (DeSerializeCellInfo (SerializeCellInfo views d)).2 = d := by
  have h := DeSerialize_Serialize views d h1 h2 h3 hchain
  rw [h]
  refine ⟨?_, ?_, ?_, rfl⟩
  · simp [two_mul]
  · simpa using
      List.take_left views
        (List.replicate views.length ((0 : Int), ([] : List CompactFaceView)))
  · simpa using
      List.drop_left views
        (List.replicate views.length ((0 : Int), ([] : List CompactFaceView)))

/-- Witness for C10 at a concrete two-cell input. -/
theorem claim_C10_resize_push_back_doubles_witness :
    ((∀ cv ∈ [((1 : Int), [((0 : Int), [(4 : Int)])]),
        ((2 : Int), [((1 : Int), ([] : List Int))])], 0 ≤ cv.1)
      ∧ (∀ cv ∈ [((1 : Int), [((0 : Int), [(4 : Int)])]),
          ((2 : Int), [((1 : Int), ([] : List Int))])], cv.2 ≠ [])
      ∧ (∀ cv ∈ [((1 : Int), [((0 : Int), [(4 : Int)])]),
          ((2 : Int), [((1 : Int), ([] : List Int))])],
          ∀ fv ∈ cv.2, ∀ x ∈ fv.2, 0 ≤ x)
      ∧ List.Chain' (fun a b => a.1 ≠ b.1)
          [((1 : Int), [((0 : Int), [(4 : Int)])]),
            ((2 : Int), [((1 : Int), ([] : List Int))])])
    ∧ ((DeSerializeCellInfo (SerializeCellInfo
          [((1 : Int), [((0 : Int), [(4 : Int)])]),
            ((2 : Int), [((1 : Int), ([] : List Int))])] 3)).1.length
        = 2 * [((1 : Int), [((0 : Int), [(4 : Int)])]),
            ((2 : Int), [((1 : Int), ([] : List Int))])].length
      ∧ (DeSerializeCellInfo (SerializeCellInfo
          [((1 : Int), [((0 : Int), [(4 : Int)])]),
            ((2 : Int), [((1 : Int), ([] : List Int))])] 3)).1.take
          [((1 : Int), [((0 : Int), [(4 : Int)])]),
            ((2 : Int), [((1 : Int), ([] : List Int))])].length
        = [((1 : Int), [((0 : Int), [(4 : Int)])]),
            ((2 : Int), [((1 : Int), ([] : List Int))])]
      ∧ (DeSerializeCellInfo (SerializeCellInfo
          [((1 : Int), [((0 : Int), [(4 : Int)])]),
            ((2 : Int), [((1 : Int), ([] : List Int))])] 3)).1.drop
          [((1 : Int), [((0 : Int), [(4 : Int)])]),
            ((2 : Int), [((1 : Int), ([] : List Int))])].length
        = List.replicate
            [((1 : Int), [((0 : Int), [(4 : Int)])]),
              ((2 : Int), [((1 : Int), ([] : List Int))])].length
            ((0 : Int), ([] : List CompactFaceView))
      ∧ (DeSerializeCellInfo (SerializeCellInfo
          [((1 : Int), [((0 : Int), [(4 : Int)])]),
            ((2 : Int), [((1 : Int), ([] : List Int))])] 3)).2 = 3) :=
  ⟨⟨by decide, by decide, by decide, by simp [List.chain'_cons]⟩,
    claim_C10_resize_push_back_doubles
      [((1 : Int), [((0 : Int), [(4 : Int)])]),
        ((2 : Int), [((1 : Int), ([] : List Int))])] 3
      (by decide) (by decide) (by decide) (by simp [List.chain'_cons])⟩

/-- C6: the buffer is the two-entry header `[num_face_dofs, num_cells]`
followed only by per-face groups `[-(global_cell_id)-1, face_id,
vertex_ids...]`; the marker is always negative for non-negative cell ids
(hence distinguishable from every non-negative vertex id); the decoder
reads `num_face_dofs` from entry 0 and the cell count from entry 1, and
recovers every global cell id as `-marker-1`. -/
theorem claim_C6_header_and_markers (views : List CompactCellView) (d : Int)
    (h1 : ∀ cv ∈ views, 0 ≤ cv.1) (h2 : ∀ cv ∈ views, cv.2 ≠ [])
    (h3 : ∀ cv ∈ views, ∀ fv ∈ cv.2, ∀ x ∈ fv.2, 0 ≤ x)
    (hchain : List.Chain' (fun a b => a.1 ≠ b.1) views) :
    SerializeCellInfo views d
      = d :: (views.length : Int)
        :: views.flatMap (fun cv =>
            cv.2.flatMap (fun fv => (-cv.1 - 1) :: fv.1 :: fv.2))
    ∧ (SerializeCellInfo views d).getD 0 0 = d
    ∧ (SerializeCellInfo views d).getD 1 0 = (views.length : Int)
    ∧ (∀ cv ∈ views, -cv.1 - 1 < 0 ∧ -(-cv.1 - 1) - 1 = cv.1)
    ∧ (DeSerializeCellInfo (SerializeCellInfo views d)).2 = d
    ∧ ((DeSerializeCellInfo (SerializeCellInfo views d)).1.take
        views.length).map (fun cv => cv.1) = views.map (fun cv => cv.1) := by
  refine ⟨rfl, rfl, rfl, ?_, ?_, ?_⟩
  · intro cv hcv
    have := h1 cv hcv
    exact ⟨by omega, by ring⟩
  · rw [DeSerialize_Serialize views d h1 h2 h3 hchain]
  · rw [DeSerialize_Serialize views d h1 h2 h3 hchain]
    simp only
    rw [show (views ++ List.replicate views.length
        ((0 : Int), ([] : List CompactFaceView))).take views.length
      = views from by
        simpa using List.take_left views
          (List.replicate views.length
            ((0 : Int), ([] : List CompactFaceView)))]

/-- Witness for C6 at a concrete two-cell input. -/
theorem claim_C6_header_and_markers_witness :
    ((∀ cv ∈ [((1 : Int), [((0 : Int), [(4 : Int)])]),
        ((0 : Int), [((1 : Int), [(5 : Int), (6 : Int)])])], 0 ≤ cv.1)
      ∧ (∀ cv ∈ [((1 : Int), [((0 : Int), [(4 : Int)])]),
          ((0 : Int), [((1 : Int), [(5 : Int), (6 : Int)])])], cv.2 ≠ [])
      ∧ (∀ cv ∈ [((1 : Int), [((0 : Int), [(4 : Int)])]),
          ((0 : Int), [((1 : Int), [(5 : Int), (6 : Int)])])],
          ∀ fv ∈ cv.2, ∀ x ∈ fv.2, 0 ≤ x)
      ∧ List.Chain' (fun a b => a.1 ≠ b.1)
          [((1 : Int), [((0 : Int), [(4 : Int)])]),
            ((0 : Int), [((1 : Int), [(5 : Int), (6 : Int)])])])
    ∧ ((SerializeCellInfo [((1 : Int), [((0 : Int), [(4 : Int)])]),
          ((0 : Int), [((1 : Int), [(5 : Int), (6 : Int)])])] 9).getD 0 0 = 9
      ∧ ((DeSerializeCellInfo (SerializeCellInfo
          [((1 : Int), [((0 : Int), [(4 : Int)])]),
            ((0 : Int), [((1 : Int), [(5 : Int), (6 : Int)])])] 9)).1.take
          2).map (fun cv => cv.1) = [1, 0]) :=
  ⟨⟨by decide, by decide, by decide, by simp [List.chain'_cons]⟩, by
    have h := claim_C6_header_and_markers
      [((1 : Int), [((0 : Int), [(4 : Int)])]),
        ((0 : Int), [((1 : Int), [(5 : Int), (6 : Int)])])] 9
      (by decide) (by decide) (by decide) (by simp [List.chain'_cons])
    refine ⟨h.2.1, ?_⟩
    have h6 := h.2.2.2.2.2
    simpa using h6⟩

/-- C5: a well-formed buffer carrying two consecutive face groups with the
same cell marker deserializes into a single decoded cell entry holding both
faces (with face ids and vertex ids in order) — not two cell entries; the
trailing entry is the untouched default slot from the header resize.  The
decoder decides this purely from the sign of each entry and the last cell
marker seen. -/
theorem claim_C5_same_marker_merges_faces (d gid fid1 fid2 : Int)
    (verts1 verts2 : List Int) (hgid : 0 ≤ gid)
    (hv1 : ∀ x ∈ verts1, 0 ≤ x) (hv2 : ∀ x ∈ verts2, 0 ≤ x) :
    DeSerializeCellInfo
      (d :: 1 :: (((-gid - 1) :: fid1 :: verts1)
        ++ ((-gid - 1) :: fid2 :: verts2)))
    = ([(gid, [(fid1, verts1), (fid2, verts2)]),
        ((0 : Int), ([] : List CompactFaceView))], d) := by
  have hbuf : d :: (1 : Int) :: (((-gid - 1) :: fid1 :: verts1)
        ++ ((-gid - 1) :: fid2 :: verts2))
      = SerializeCellInfo [(gid, [(fid1, verts1), (fid2, verts2)])] d := by
    simp [SerializeCellInfo, serializeBody]
  rw [hbuf,
    DeSerialize_Serialize [(gid, [(fid1, verts1), (fid2, verts2)])] d
      (by intro cv hcv; simp at hcv; rw [hcv]; exact hgid)
      (by intro cv hcv; simp at hcv; rw [hcv]; simp)
      (by
        intro cv hcv fv hfv x hx
        simp at hcv
        rw [hcv] at hfv
        simp at hfv
        rcases hfv with h | h <;> rw [h] at hx <;> simp at hx
        · exact hv1 x hx
        · exact hv2 x hx)
      (by simp)]
  simp

/-- Witness for C5 at a concrete buffer. -/
theorem claim_C5_same_marker_merges_faces_witness :
    ((0 : Int) ≤ 3 ∧ (∀ x ∈ [(4 : Int)], 0 ≤ x)
      ∧ (∀ x ∈ ([] : List Int), 0 ≤ x))
    ∧ DeSerializeCellInfo
        ((2 : Int) :: 1 :: (((-(3 : Int) - 1) :: (0 : Int) :: [(4 : Int)])
          ++ ((-(3 : Int) - 1) :: (1 : Int) :: ([] : List Int))))
      = ([((3 : Int), [((0 : Int), [(4 : Int)]),
          ((1 : Int), ([] : List Int))]),
          ((0 : Int), ([] : List CompactFaceView))], 2) :=
  ⟨⟨by decide, by decide, by decide⟩,
    claim_C5_same_marker_merges_faces 2 3 0 1 [(4 : Int)] []
      (by decide) (by decide) (by decide)⟩

/-- `getD` past the end of the list yields the default. -/
lemma getD_length_le {α : Type} (l : List α) (i : Nat) (d : α)
    (h : l.length ≤ i) : l.getD i d = d := by
  induction l generalizing i with
  | nil => rfl
  | cons a l ih =>
      cases i with
      | zero => simp at h
      | succ i => exact ih i (by simpa using h)

/-- Phase 1 of the trace sends to exactly the delayed-classified
successors. -/
lemma sendDelayedSuccessorTrace_eq (spds : SPDS) (t : Int) :
    sendDelayedSuccessorTrace spds t
    = (spds.location_successors.filter
        (fun locJ => spds.delayed_location_successors.contains locJ)).map
        (fun locJ => CommEvent.isend locJ (101 + t)) := by
  unfold sendDelayedSuccessorTrace
  rw [flatMap_if_singleton]

/-- Phase 4 of the trace sends to exactly the ordinary successors. -/
lemma sendSuccessorTrace_eq (spds : SPDS) (t : Int) :
    sendSuccessorTrace spds t
    = (spds.location_successors.filter
        (fun locJ => !(spds.delayed_location_successors.contains locJ))).map
        (fun locJ => CommEvent.isend locJ (101 + t)) := by
  unfold sendSuccessorTrace
  rw [flatMap_if_neg_singleton]

/-- A member of a duplicate-free list occurs once in the half of a
filter-split that contains it and zero times in the other half. -/
lemma count_filter_split (m : List Int) (P : Int → Bool) (locJ : Int)
    (hnodup : m.Nodup) (hmem : locJ ∈ m) (hP : P locJ = true) :
    (m.filter P).count locJ = 1
    ∧ (m.filter (fun x => !(P x))).count locJ = 0 := by
  constructor
  · rw [List.count_filter (by simp [hP])]
    exact List.count_eq_one_of_mem hnodup hmem
  · rw [List.count_eq_zero]
    intro hc
    have := (List.mem_filter.mp hc).2
    simp [hP] at this

/-- C2: the trace of `InitializeBetaElements` is, in strict program order:
(1) non-blocking sends to exactly the delayed-classified successors,
(2) blocking probe-then-receives from every delayed predecessor,
(3) blocking probe-then-receives from every ordinary predecessor in
partition-list order, (4) non-blocking sends to exactly the ordinary
successors, (5) waits on every outstanding send request — and only after
all waits does the send-buffer release happen. -/
theorem claim_C2_phase_order (spds : SPDS) (tag_index : Int) :
    InitializeBetaElementsTrace spds tag_index
    = ((spds.location_successors.filter
          (fun locJ => spds.delayed_location_successors.contains locJ)).map
          (fun locJ => CommEvent.isend locJ (101 + tag_index)))
      ++ ((spds.delayed_location_dependencies.map
          (fun locJ => CommEvent.proberecv locJ (101 + tag_index)))
      ++ ((spds.location_dependencies.map
          (fun locJ => CommEvent.proberecv locJ (101 + tag_index)))
      ++ (((spds.location_successors.filter
          (fun locJ => !(spds.delayed_location_successors.contains locJ))).map
          (fun locJ => CommEvent.isend locJ (101 + tag_index)))
      ++ (((List.range spds.location_successors.length).map CommEvent.wait)
      ++ [CommEvent.release])))) :=
  InitializeBetaElementsTrace_eq spds tag_index

/-- C8: with distinct successor ranks, every successor process receives
exactly one send during `InitializeBetaElements`: a delayed-classified
successor is sent to in the delayed phase and skipped in the ordinary
phase, an ordinary successor the other way around; no successor is sent to
twice and none is omitted. -/
theorem claim_C8_exactly_one_send (spds : SPDS) (tag_index : Int)
    (hnodup : spds.location_successors.Nodup)
    (hsub : ∀ x ∈ spds.delayed_location_successors,
      x ∈ spds.location_successors)
    (locJ : Int) (hmem : locJ ∈ spds.location_successors) :
    ((InitializeBetaElementsTrace spds tag_index).filter
      (isSendTo locJ)).length = 1
    ∧ (spds.delayed_location_successors.contains locJ = true →
        ((sendDelayedSuccessorTrace spds tag_index).filter
          (isSendTo locJ)).length = 1
        ∧ ((sendSuccessorTrace spds tag_index).filter
          (isSendTo locJ)).length = 0)
    ∧ (spds.delayed_location_successors.contains locJ = false →
        ((sendDelayedSuccessorTrace spds tag_index).filter
          (isSendTo locJ)).length = 0
        ∧ ((sendSuccessorTrace spds tag_index).filter
          (isSendTo locJ)).length = 1) := by
  have c1 : ((sendDelayedSuccessorTrace spds tag_index).filter
      (isSendTo locJ)).length
      = (spds.location_successors.filter
        (fun x => spds.delayed_location_successors.contains x)).count locJ := by
    rw [sendDelayedSuccessorTrace_eq, length_filter_isSendTo_map]
  have c4 : ((sendSuccessorTrace spds tag_index).filter
      (isSendTo locJ)).length
      = (spds.location_successors.filter
        (fun x => !(spds.delayed_location_successors.contains x))).count
          locJ := by
    rw [sendSuccessorTrace_eq, length_filter_isSendTo_map]
  have hwhole : ((InitializeBetaElementsTrace spds tag_index).filter
      (isSendTo locJ)).length
      = ((sendDelayedSuccessorTrace spds tag_index).filter
          (isSendTo locJ)).length
        + ((sendSuccessorTrace spds tag_index).filter
          (isSendTo locJ)).length := by
    unfold InitializeBetaElementsTrace
    rw [recvDelayedPredecessorTrace, recvPredecessorTrace, waitSendsTrace]
    simp only [List.filter_append, List.length_append, flatMap_singleton_map]
    rw [filter_isSendTo_proberecv, filter_isSendTo_proberecv,
      filter_isSendTo_wait]
    simp [List.filter_cons, isSendTo]
  by_cases hd : spds.delayed_location_successors.contains locJ
  · have hsplit := count_filter_split spds.location_successors
      (fun x => spds.delayed_location_successors.contains x) locJ hnodup
      hmem hd
    refine ⟨?_, fun _ => ⟨?_, ?_⟩, fun hf => ?_⟩
    · rw [hwhole, c1, c4, hsplit.1, hsplit.2]
    · rw [c1, hsplit.1]
    · rw [c4, hsplit.2]
    · rw [hd] at hf
      exact absurd hf (by simp)
  · have hdf : spds.delayed_location_successors.contains locJ = false := by
      simpa using hd
    have hd2 : (fun x => !(spds.delayed_location_successors.contains x)) locJ
        = true := by
      show (!(spds.delayed_location_successors.contains locJ)) = true
      rw [hdf]
      rfl
    have hsplit := count_filter_split spds.location_successors
      (fun x => !(spds.delayed_location_successors.contains x)) locJ hnodup
      hmem hd2
    have hzero : (spds.location_successors.filter
        (fun x => spds.delayed_location_successors.contains x)).count locJ
        = 0 := by
      rw [List.count_eq_zero]
      intro hc
      have := (List.mem_filter.mp hc).2
      rw [hdf] at this
      exact absurd this (by simp)
    refine ⟨?_, fun ht => ?_, fun _ => ⟨?_, ?_⟩⟩
    · rw [hwhole, c1, c4, hzero, hsplit.1]
    · exact absurd ht hd
    · rw [c1, hzero]
    · rw [c4, hsplit.1]

/-- Witness for C8: two successors, one delayed. -/
theorem claim_C8_exactly_one_send_witness :
    ((⟨[0], [1, 2], [], [2]⟩ : SPDS).location_successors.Nodup
      ∧ (∀ x ∈ (⟨[0], [1, 2], [], [2]⟩ : SPDS).delayed_location_successors,
          x ∈ (⟨[0], [1, 2], [], [2]⟩ : SPDS).location_successors)
      ∧ (2 : Int) ∈ (⟨[0], [1, 2], [], [2]⟩ : SPDS).location_successors)
    ∧ ((InitializeBetaElementsTrace (⟨[0], [1, 2], [], [2]⟩ : SPDS) 0).filter
        (isSendTo 2)).length = 1 :=
  ⟨⟨by decide, by decide, by decide⟩,
    (claim_C8_exactly_one_send (⟨[0], [1, 2], [], [2]⟩ : SPDS) 0
      (by decide) (by decide) 2 (by decide)).1⟩

/-- A `ClearDownstreamBuffers` call after `done_sending` is set returns
immediately with no effect. -/
lemma ClearDownstreamBuffers_done (s : SweepBuffer)
    (h : s.done_sending = true) (u : List (List Bool)) :
    ClearDownstreamBuffers u s = s := by
  unfold ClearDownstreamBuffers
  rw [if_pos h]

/-- C3: while any outstanding send is incomplete, every call to
`ClearDownstreamBuffers` leaves `done_sending` false and performs no other
state change, no matter how many times it is called; on the first call at
which every send has completed it sets `done_sending` and invokes
`ClearSendPsi` exactly once; and every subsequent call returns immediately
with no effect. -/
theorem claim_C3_clear_downstream_poll (sb : SweepBuffer)
    (tests : List (List (List Bool))) (t u : List (List Bool))
    (h : sb.done_sending = false)
    (hincomplete : tests.all (fun x => !(allRequestsSent x)) = true)
    (hdone : allRequestsSent t = true) :
    tests.foldl (fun s x => ClearDownstreamBuffers x s) sb = sb
    ∧ ClearDownstreamBuffers t sb
      = { sb with
          done_sending := true,
          fluds_send_psi_cleared := sb.fluds_send_psi_cleared + 1 }
    ∧ ClearDownstreamBuffers u (ClearDownstreamBuffers t sb)
      = ClearDownstreamBuffers t sb := by
  have hin : ∀ x ∈ tests, allRequestsSent x = false := by
    intro x hx
    have := List.all_eq_true.mp hincomplete x hx
    simpa using this
  refine ⟨ClearDownstreamBuffers_foldl_incomplete sb h tests hin, ?_, ?_⟩
  · simp [ClearDownstreamBuffers, h, hdone]
  · have h2 : (ClearDownstreamBuffers t sb).done_sending = true := by
      simp [ClearDownstreamBuffers, h, hdone]
    exact ClearDownstreamBuffers_done _ h2 u

/-- Witness for C3 at a concrete buffer state and test sequences. -/
theorem claim_C3_clear_downstream_poll_witness :
    ((⟨false, false, false, [], [], 0, 0, 0, 0, 0, 0⟩ :
        SweepBuffer).done_sending = false
      ∧ ([[[false]], [[true, false]]] :
          List (List (List Bool))).all (fun x => !(allRequestsSent x)) = true
      ∧ allRequestsSent [[true], [true, true]] = true)
    ∧ (([[[false]], [[true, false]]] :
        List (List (List Bool))).foldl
        (fun s x => ClearDownstreamBuffers x s)
        (⟨false, false, false, [], [], 0, 0, 0, 0, 0, 0⟩ : SweepBuffer)
      = (⟨false, false, false, [], [], 0, 0, 0, 0, 0, 0⟩ : SweepBuffer)
      ∧ ClearDownstreamBuffers [[true], [true, true]]
          (⟨false, false, false, [], [], 0, 0, 0, 0, 0, 0⟩ : SweepBuffer)
        = { (⟨false, false, false, [], [], 0, 0, 0, 0, 0, 0⟩ : SweepBuffer)
            with
            done_sending := true,
            fluds_send_psi_cleared :=
              (⟨false, false, false, [], [], 0, 0, 0, 0, 0, 0⟩ :
                SweepBuffer).fluds_send_psi_cleared + 1 }
      ∧ ClearDownstreamBuffers [[false]]
          (ClearDownstreamBuffers [[true], [true, true]]
            (⟨false, false, false, [], [], 0, 0, 0, 0, 0, 0⟩ : SweepBuffer))
        = ClearDownstreamBuffers [[true], [true, true]]
            (⟨false, false, false, [], [], 0, 0, 0, 0, 0, 0⟩ :
              SweepBuffer)) :=
  ⟨⟨rfl, by decide, by decide⟩,
    claim_C3_clear_downstream_poll
      (⟨false, false, false, [], [], 0, 0, 0, 0, 0, 0⟩ : SweepBuffer)
      [[[false]], [[true, false]]] [[true], [true, true]] [[false]]
      rfl (by decide) (by decide)⟩

/-- C7: `Reset` clears `done_sending`, `data_initialized` and
`upstream_data_initialized`, sets every entry of both received-message flag
arrays to `false` while keeping the array lengths, and leaves every other
field — `max_num_mess`, the eager limit, group and angle counts, the
communicator set, and the FLUDS side state — unchanged. -/
theorem claim_C7_reset_frame (sb : SweepBuffer) :
    (Reset sb).done_sending = false
    ∧ (Reset sb).data_initialized = false
    ∧ (Reset sb).upstream_data_initialized = false
    ∧ (Reset sb).prelocI_message_received.map List.length
      = sb.prelocI_message_received.map List.length
    ∧ (∀ flags ∈ (Reset sb).prelocI_message_received,
        ∀ b ∈ flags, b = false)
    ∧ (Reset sb).delayed_prelocI_message_received.map List.length
      = sb.delayed_prelocI_message_received.map List.length
    ∧ (∀ flags ∈ (Reset sb).delayed_prelocI_message_received,
        ∀ b ∈ flags, b = false)
    ∧ (Reset sb).max_num_mess = sb.max_num_mess
    ∧ (Reset sb).EAGER_LIMIT = sb.EAGER_LIMIT
    ∧ (Reset sb).num_groups_ = sb.num_groups_
    ∧ (Reset sb).num_angles_ = sb.num_angles_
    ∧ (Reset sb).comm_set = sb.comm_set
    ∧ (Reset sb).fluds_send_psi_cleared = sb.fluds_send_psi_cleared := by
  refine ⟨rfl, rfl, rfl, ?_, ?_, ?_, ?_, rfl, rfl, rfl, rfl, rfl, rfl⟩
  · simp [Reset]
  · intro flags hf b hb
    simp only [Reset, List.mem_map] at hf
    obtain ⟨x, _, hx⟩ := hf
    rw [← hx] at hb
    exact List.eq_of_mem_replicate hb
  · simp [Reset]
  · intro flags hf b hb
    simp only [Reset, List.mem_map] at hf
    obtain ⟨x, _, hx⟩ := hf
    rw [← hx] at hb
    exact List.eq_of_mem_replicate hb

/-- C9: after `InitializeBetaElements` returns, the three transient
compact-cell-view containers are empty (swapped with empty vectors); and
during the two send loops each successor's per-process view storage is
cleared immediately after its data is serialized, before the next successor
is processed: after `k` iterations of the delayed-send loop every
delayed index below `k` is empty, and after `k` iterations of the
ordinary-send loop every index below `k` is empty. -/
theorem claim_C9_transient_storage_released (spds : SPDS) (st : FLUDSData)
    (dbufs rbufs : List (List Int)) (k j : Nat)
    (hlen : st.deplocI_cell_views.length = spds.location_successors.length)
    (hk : k ≤ spds.location_successors.length) (hj : j < k) :
    (InitializeBetaElementsData spds dbufs rbufs st).deplocI_cell_views = []
    ∧ (InitializeBetaElementsData spds dbufs rbufs st).prelocI_cell_views
      = []
    ∧ (InitializeBetaElementsData spds dbufs rbufs
        st).delayed_prelocI_cell_views = []
    ∧ (delayedSuccessor spds j = true →
        ((List.range k).foldl (sendDelayedStep spds)
          st).deplocI_cell_views.getD j [] = [])
    ∧ ((List.range k).foldl (sendStep spds)
        (recvPhase spds rbufs (recvDelayedPhase spds dbufs
          (sendDelayedPhase spds st)))).deplocI_cell_views.getD j []
      = [] := by
  refine ⟨rfl, rfl, rfl, ?_, ?_⟩
  · intro hdel
    exact sendDelayed_foldl_cleared spds st k j hlen hk hj hdel
  · have hfield : (recvPhase spds rbufs (recvDelayedPhase spds dbufs
        (sendDelayedPhase spds st))).deplocI_cell_views
        = (sendDelayedPhase spds st).deplocI_cell_views := rfl
    have hlen3 : (recvPhase spds rbufs (recvDelayedPhase spds dbufs
        (sendDelayedPhase spds st))).deplocI_cell_views.length
        = spds.location_successors.length := by
      rw [hfield]
      unfold sendDelayedPhase
      rw [sendDelayed_foldl_length]
      exact hlen
    have hprev : ∀ i, delayedSuccessor spds i = true →
        (recvPhase spds rbufs (recvDelayedPhase spds dbufs
          (sendDelayedPhase spds st))).deplocI_cell_views.getD i []
        = [] := by
      intro i hdel
      rw [hfield]
      unfold sendDelayedPhase
      by_cases hin : i < spds.location_successors.length
      · exact sendDelayed_foldl_cleared spds st _ i hlen le_rfl hin hdel
      · rw [getD_length_le]
        rw [sendDelayed_foldl_length, hlen]
        omega
    exact send_foldl_cleared spds _ k j hlen3 hprev hk hj

/-- Witness for C9: two successors, the second delayed. -/
theorem claim_C9_transient_storage_released_witness :
    ((⟨[[((1 : Int), [((0 : Int), ([] : List Int))])], [((2 : Int),
        ([] : List CompactFaceView))]], [], [], [], [], []⟩ :
        FLUDSData).deplocI_cell_views.length
      = (⟨[], [7, 8], [], [8]⟩ : SPDS).location_successors.length
      ∧ (2 : Nat) ≤ (⟨[], [7, 8], [], [8]⟩ :
          SPDS).location_successors.length
      ∧ (1 : Nat) < 2)
    ∧ (InitializeBetaElementsData (⟨[], [7, 8], [], [8]⟩ : SPDS) [] []
        (⟨[[((1 : Int), [((0 : Int), ([] : List Int))])], [((2 : Int),
          ([] : List CompactFaceView))]], [], [], [], [], []⟩ :
          FLUDSData)).deplocI_cell_views = []
      ∧ ((List.range 2).foldl (sendStep (⟨[], [7, 8], [], [8]⟩ : SPDS))
          (recvPhase (⟨[], [7, 8], [], [8]⟩ : SPDS) []
            (recvDelayedPhase (⟨[], [7, 8], [], [8]⟩ : SPDS) []
              (sendDelayedPhase (⟨[], [7, 8], [], [8]⟩ : SPDS)
                (⟨[[((1 : Int), [((0 : Int), ([] : List Int))])],
                  [((2 : Int), ([] : List CompactFaceView))]],
                  [], [], [], [], []⟩ :
                  FLUDSData))))).deplocI_cell_views.getD 1 [] = [] := by
  have h := claim_C9_transient_storage_released
    (⟨[], [7, 8], [], [8]⟩ : SPDS)
    (⟨[[((1 : Int), [((0 : Int), ([] : List Int))])],
      [((2 : Int), ([] : List CompactFaceView))]], [], [], [], [], []⟩ :
      FLUDSData) [] [] 2 1 (by decide) (by decide) (by decide)
  exact ⟨⟨by decide, by decide, by decide⟩, h.1, h.2.2.2.2⟩

end SweepManagement
end ChiMesh
